import Mathlib

/-!
# Verification of the MultiNodeRAG adaptive-RAG components

Shallow embedding, in Lean 4, of the pure computational core of the
MultiNodeRAG repository:

* `src/rag_system/adaptive_rag/core/query_analyzer.py`   (query complexity analysis)
* `src/rag_system/adaptive_rag/caching/query_cache.py`   (LRU query cache)
* `rag_system/adaptive_rag/config/adaptive_config.py`    (configuration and updates)
* `rag_system/adaptive_rag/config/profiles_config.py`    (retrieval profiles)
* `RAG_system/adaptive_rag/retrieval/context_composer.py` (context composition)
* `RAG_system/adaptive_rag/retrieval/relevance.py`       (relevance scoring)
* `rag_system/adaptive_rag/retrieval/dynamic_search.py`  (dynamic retrieval)

Modelling conventions:

* Python `str` values are modelled as `List Char` (query texts, chunk texts)
  or `String` (identifiers and labels that are only ever compared for
  equality).  All inputs considered here are ASCII, for which Lean's
  `Char.toLower`, `Char.isAlphanum` agree with Python's `str.lower` and the
  `\w` regex class.
* Python `float` values are modelled as `ℚ`.  Every numeric comparison made
  by the code under verification is at a distance far larger than one
  floating-point ulp from the compared threshold, so exact rational
  arithmetic and IEEE-754 binary64 arithmetic take the same branches on all
  inputs appearing in the theorems below.
* Python `int` values are modelled as `ℕ`; all integers handled by this code
  are non-negative.
* Effects (the FAISS index search, the pack-file load, and the invocation of
  the context composer) are reified as an explicit `Effect` trace so that
  claims about "no search / no composition is performed" are statable.
-/

namespace MultiNodeRAG

/-! ## Basic string utilities (Python `str` operations and the regex
patterns used by `query_analyzer.py`) -/

/-- Python's `\w` regex class (ASCII): letters, digits, underscore. -/
def isWordChar (c : Char) : Bool := c.isAlphanum || c == '_'

/-- Python's `\s` regex class (the whitespace characters recognised by
`str.split()` as well). -/
def isSpaceChar (c : Char) : Bool :=
  c == ' ' || c == '\t' || c == '\n' || c == '\r' || c == '\x0b' || c == '\x0c'

/-- The loop of `splitWs`, structurally recursive on a fuel argument so
that it reduces in the kernel.  Every step consumes at least one character,
so fuel `l.length` is always sufficient. -/
def splitWsGo : ℕ → List Char → List (List Char)
  | 0, _ => []
  | _, [] => []
  | fuel + 1, c :: cs =>
    if isSpaceChar c then splitWsGo fuel cs
    else (c :: cs.takeWhile (fun d => !isSpaceChar d)) ::
         splitWsGo fuel (cs.dropWhile (fun d => !isSpaceChar d))

/-- Python `str.split()` (no argument): split on runs of whitespace,
discarding empty fields. -/
def splitWs (l : List Char) : List (List Char) := splitWsGo l.length l

/-- The loop of `countSubstr` for the non-empty needle `n :: ns`,
structurally recursive on a fuel argument so that it reduces in the kernel
(fuel `hay.length` is always sufficient). -/
def countSubstrGo (n : Char) (ns : List Char) : ℕ → List Char → ℕ
  | 0, _ => 0
  | _, [] => 0
  | fuel + 1, c :: cs =>
    if (n :: ns).isPrefixOf (c :: cs) then
      1 + countSubstrGo n ns fuel (cs.drop ns.length)
    else
      countSubstrGo n ns fuel cs

/-- Python `str.count(sub)`: number of non-overlapping occurrences of `sub`,
scanning left to right.  (`"".count("")` is `len(s)+1` in Python; all
needles used below are non-empty.) -/
def countSubstr (needle hay : List Char) : ℕ :=
  match needle with
  | [] => hay.length + 1
  | n :: ns => countSubstrGo n ns hay.length hay

/-- Python `sub in s` (substring containment). -/
def containsSubstr (needle hay : List Char) : Bool :=
  countSubstr needle hay != 0

/-- Python `s.lower()` (ASCII). -/
def lowerStr (l : List Char) : List Char := l.map Char.toLower

/-- Python `min(a, b)` on numbers, written so that it reduces in the
kernel. -/
def ratMin (a b : ℚ) : ℚ := if a ≤ b then a else b

/-- Python `max(a, b)` on numbers, written so that it reduces in the
kernel. -/
def ratMax (a b : ℚ) : ℚ := if a ≤ b then b else a

@[simp] theorem ratMin_eq (a b : ℚ) : ratMin a b = min a b := by
  simp [ratMin, min_def]

@[simp] theorem ratMax_eq (a b : ℚ) : ratMax a b = max a b := by
  simp [ratMax, max_def]

/-! ## Regex scanners for `QueryAnalyzer`'s patterns

Each scanner decides `re.search(pattern, s)` for one of the literal patterns
in `query_analyzer.py`.  `re.search` succeeds iff a match starts at some
position, which each scanner checks position by position. -/

/-- Decides `re.search(r'\b\w+\s*OP\s*\w+', s)` for a class `isOp` of
operator characters (`OP` is `=` or `[+\-*/]` below).  A match exists iff
some operator character is preceded, across spaces only, by a word
character, and followed, across spaces only, by a word character; the `\b`
is then available at the start of that word-character run.  `afterWord`
records whether the last non-space character seen was a word character. -/
def scanWordOpWord (isOp : Char → Bool) (afterWord : Bool) : List Char → Bool
  | [] => false
  | c :: cs =>
    if isWordChar c then scanWordOpWord isOp true cs
    else if isSpaceChar c then scanWordOpWord isOp afterWord cs
    else if isOp c && afterWord then
      match cs.dropWhile isSpaceChar with
      | d :: _ => if isWordChar d then true else scanWordOpWord isOp false cs
      | [] => scanWordOpWord isOp false cs
    else scanWordOpWord isOp false cs

/-- Decides `re.search(r'\$\$.*?\$\$', s)`: two non-overlapping `$$` with no
newline strictly between them (`.` does not match `\n`). -/
def hasDollarBlock : List Char → Bool
  | [] => false
  | c :: cs =>
    (match cs with
     | d :: ds =>
       (c == '$' && d == '$' && containsSubstr ['$', '$'] (ds.takeWhile (fun x => x != '\n')))
     | [] => false)
    || hasDollarBlock cs

/-- Decides `re.search(r'\$.*?\$', s)`: two `$` with no newline strictly
between them. -/
def hasInlineDollar : List Char → Bool
  | [] => false
  | c :: cs =>
    (c == '$' && containsSubstr ['$'] (cs.takeWhile (fun x => x != '\n')))
    || hasInlineDollar cs

/-- Decides `re.search(r'\\[a-zA-Z]+', s)`: a backslash followed by a
letter. -/
def hasLatexCommand : List Char → Bool
  | [] => false
  | c :: cs =>
    (c == '\\' && (match cs with | d :: _ => d.isAlpha | [] => false))
    || hasLatexCommand cs

/-- Decides `re.search(r'\b\w+\([^)]+\)', s)`: a word character immediately
before `'('`, then at least one non-`')'` character, then `')'`. -/
def hasFunctionCall : List Char → Bool
  | [] => false
  | c :: cs =>
    (isWordChar c &&
      (match cs with
       | d :: rest => d == '(' &&
           (match rest with
            | e :: _ => e != ')' && rest.contains ')'
            | [] => false)
       | [] => false))
    || hasFunctionCall cs

/-- `=` operator class for the equation pattern. -/
def isEqChar (c : Char) : Bool := c == '='

/-- `[+\-*/]` operator class for the arithmetic pattern. -/
def isArithOp (c : Char) : Bool := c == '+' || c == '-' || c == '*' || c == '/'

/-! ## `QueryAnalyzer` (src/rag_system/adaptive_rag/core/query_analyzer.py) -/

/-- `QueryAnalyzer.complex_keywords`. -/
def complexKeywords : List String :=
  ["prove", "derive", "calculate", "solve", "analyze", "explain",
   "theorem", "lemma", "corollary", "definition", "proof",
   "probability", "distribution", "expectation", "variance",
   "convergence", "limit", "integral", "derivative",
   "matrix", "eigenvalue", "eigenvector", "determinant",
   "optimization", "minimize", "maximize", "constraint"]

/-- `QueryAnalyzer.simple_keywords`. -/
def simpleKeywords : List String :=
  ["what", "how", "when", "where", "why", "which",
   "define", "meaning", "example", "instance",
   "yes", "no", "true", "false", "correct", "incorrect"]

/-- `QueryAnalyzer._count_keywords`: sum over the keywords of
`query.lower().count(keyword.lower())`. -/
def count_keywords (q : List Char) (kws : List String) : ℕ :=
  (kws.map (fun kw => countSubstr (lowerStr kw.data) (lowerStr q))).sum

/-- `QueryAnalyzer._has_mathematical_content`: `re.search` of any of the
five `math_patterns` (the `re.IGNORECASE` flag does not change any of these
patterns). -/
def has_mathematical_content (q : List Char) : Bool :=
  scanWordOpWord isEqChar false q || hasDollarBlock q || hasLatexCommand q
    || hasFunctionCall q || scanWordOpWord isArithOp false q

/-- `QueryAnalyzer._has_equations`. -/
def has_equations_check (q : List Char) : Bool :=
  hasDollarBlock q || hasInlineDollar q || scanWordOpWord isEqChar false q
    || hasFunctionCall q

/-- Substring membership of any of a list of indicator strings in the
lower-cased query (`any(ind in query_lower for ind in inds)`). -/
def anyIndicator (q : List Char) (inds : List String) : Bool :=
  inds.any (fun ind => containsSubstr ind.data (lowerStr q))

/-- `QueryAnalyzer._has_definitions`. -/
def has_definitions_check (q : List Char) : Bool :=
  anyIndicator q ["define", "definition", "what is", "meaning of",
                  "explain the concept", "describe"]

/-- `QueryAnalyzer._has_proofs`. -/
def has_proofs_check (q : List Char) : Bool :=
  anyIndicator q ["prove", "proof", "show that", "demonstrate",
                  "derive", "deduce", "establish"]

/-- `QueryAnalyzer._has_examples`. -/
def has_examples_check (q : List Char) : Bool :=
  anyIndicator q ["example", "instance", "case", "illustrate",
                  "give an example", "show an example"]

/-- `QueryAnalyzer._classify_question_type`. -/
def classify_question_type (q : List Char) : String :=
  if anyIndicator q ["what", "define", "definition"] then "definition"
  else if anyIndicator q ["how", "prove", "derive", "calculate"] then "procedural"
  else if anyIndicator q ["why", "explain", "reason"] then "explanatory"
  else if anyIndicator q ["example", "instance", "case"] then "example"
  else if anyIndicator q ["compare", "difference", "similarity"] then "comparative"
  else "general"

/-- `QueryAnalyzer._calculate_semantic_complexity`.  `modelLoaded` is true
when the sentence-transformer loaded; the embedding itself is computed but
unused by the source, which only uses vocabulary diversity and character
length.  When the model is absent (or `encode` raises) the source returns
`0.5`. -/
def calculate_semantic_complexity (modelLoaded : Bool) (q : List Char) : ℚ :=
  if modelLoaded then
    let ws := splitWs q
    let diversity : ℚ := if ws.length = 0 then 0 else (ws.dedup.length : ℚ) / (ws.length : ℚ)
    let lengthFactor : ℚ := ratMin ((q.length : ℚ) / 100) 1
    (diversity + lengthFactor) / 2
  else (0.5 : ℚ)

/-- The feature dictionary built by `QueryAnalyzer._extract_features`.
The `metadata` entry is omitted: it is never read by the scoring,
confidence, or recommendation functions.  `semantic_complexity` is a
rational modelling the Python float. -/
structure Features where
  query_length : ℕ
  char_length : ℕ
  has_math : Bool
  complex_keywords : ℕ
  simple_keywords : ℕ
  question_type : String
  has_equations : Bool
  has_definitions : Bool
  has_proofs : Bool
  has_examples : Bool
  semantic_complexity : ℚ
deriving DecidableEq, Repr

/-- `QueryAnalyzer._extract_features` (with `query_metadata = None`). -/
def extract_features (modelLoaded : Bool) (q : List Char) : Features where
  query_length := (splitWs q).length
  char_length := q.length
  has_math := has_mathematical_content q
  complex_keywords := count_keywords q complexKeywords
  simple_keywords := count_keywords q simpleKeywords
  question_type := classify_question_type q
  has_equations := has_equations_check q
  has_definitions := has_definitions_check q
  has_proofs := has_proofs_check q
  has_examples := has_examples_check q
  semantic_complexity := calculate_semantic_complexity modelLoaded q

/-- The `type_scores` dictionary of `_calculate_complexity_score`
(`type_scores.get(question_type, 0.5)`). -/
def type_score (t : String) : ℚ :=
  if t = "definition" then 0.3
  else if t = "procedural" then 0.8
  else if t = "explanatory" then 0.6
  else if t = "example" then 0.4
  else if t = "comparative" then 0.7
  else if t = "general" then 0.5
  else 0.5

/-- `QueryAnalyzer._calculate_complexity_score`.  The weights loop adds
`weight * bool` for boolean features and `weight * min(count/3, 1)` for
integer features; `query_length`, `question_type` (a string) and
`semantic_complexity` are handled separately, exactly as in the source. -/
def calculate_complexity_score (f : Features) : ℚ :=
  let lengthScore : ℚ := ratMin ((f.query_length : ℚ) / 20) 1
  let s := (0.1 : ℚ) * lengthScore
    + (if f.has_math then (0.2 : ℚ) else 0)
    + (0.15 : ℚ) * ratMin ((f.complex_keywords : ℚ) / 3) 1
    + (-(0.1) : ℚ) * ratMin ((f.simple_keywords : ℚ) / 3) 1
    + (if f.has_equations then (0.15 : ℚ) else 0)
    + (if f.has_definitions then (0.05 : ℚ) else 0)
    + (if f.has_proofs then (0.2 : ℚ) else 0)
    + (if f.has_examples then (0.05 : ℚ) else 0)
    + (0.1 : ℚ) * type_score f.question_type
    + (0.1 : ℚ) * f.semantic_complexity
  ratMax 0 (ratMin 1 s)

/-- The number of triggered boolean indicators among `has_math`,
`has_equations`, `has_definitions`, `has_proofs`, `has_examples`
(`indicator_count` in `_calculate_confidence`). -/
def indicator_count (f : Features) : ℕ :=
  (if f.has_math then 1 else 0) + (if f.has_equations then 1 else 0)
    + (if f.has_definitions then 1 else 0) + (if f.has_proofs then 1 else 0)
    + (if f.has_examples then 1 else 0)

/-- `QueryAnalyzer._calculate_confidence`. -/
def calculate_confidence (f : Features) : ℚ :=
  let length_confidence : ℚ := ratMin ((f.query_length : ℚ) / 10) 1
  let clear_indicators : ℕ := f.complex_keywords + f.simple_keywords
  let indicator_confidence : ℚ := ratMin ((clear_indicators : ℚ) / 3) 1
  let confidence : ℚ := (indicator_count f : ℚ) * (0.3 : ℚ)
    + length_confidence * (0.4 : ℚ) + indicator_confidence * (0.3 : ℚ)
  ratMax (0.1 : ℚ) (ratMin 1 confidence)

/-- `QueryAnalyzer._make_recommendation` (its `features` parameter is
unused by the source). -/
def make_recommendation (complexity_score confidence : ℚ) : String :=
  if (0.8 : ℚ) < confidence then
    if (0.6 : ℚ) < complexity_score then "rag"
    else if complexity_score < (0.3 : ℚ) then "direct"
    else "rag"
  else if (0.5 : ℚ) < confidence then
    if (0.7 : ℚ) < complexity_score then "rag"
    else if complexity_score < (0.2 : ℚ) then "direct"
    else "rag"
  else "rag"

/-- The result of `QueryAnalyzer.analyze_query` (the human-readable
`reasoning` string and the raw feature dictionary are presentation data and
omitted). -/
structure QueryComplexity where
  complexity_score : ℚ
  confidence : ℚ
  recommendation : String
deriving DecidableEq, Repr

/-- `QueryAnalyzer.analyze_query` with no metadata. -/
def analyze_query (modelLoaded : Bool) (q : List Char) : QueryComplexity :=
  let f := extract_features modelLoaded q
  { complexity_score := calculate_complexity_score f
    confidence := calculate_confidence f
    recommendation := make_recommendation (calculate_complexity_score f) (calculate_confidence f) }

/-! ## Chunks and the `ContextComposer`
(`RAG_system/adaptive_rag/retrieval/context_composer.py`) -/

/-- A retrieval chunk dictionary.  The retrieval code always populates the
keys `id`, `text`, `source`, `score`, `label`; `label` is `Option` because
`compose` also accepts chunks that were never labelled. -/
structure Chunk where
  id : String
  text : List Char
  source : String
  score : ℚ
  label : Option String
deriving DecidableEq, Repr

/-- Stable insertion into a descending-sorted list: the new element goes in
front of the first element whose key is `≤` its own.  `insertDescBy` and
`sortDescBy` together implement Python's stable
`sorted(l, key=key, reverse=True)`: a stable sort is determined uniquely by
the key order, so any stable algorithm models `sorted`. -/
def insertDescBy (key : α → ℚ) (a : α) : List α → List α
  | [] => [a]
  | b :: l => if key b ≤ key a then a :: b :: l else b :: insertDescBy key a l

/-- Python `sorted(l, key=key, reverse=True)` (stable, descending). -/
def sortDescBy (key : α → ℚ) : List α → List α
  | [] => []
  | a :: l => insertDescBy key a (sortDescBy key l)

/-- The word set of a text: `set(text.lower().split())`. -/
def wordSet (t : List Char) : Finset (List Char) :=
  (splitWs (lowerStr t)).toFinset

/-- `ContextComposer._calculate_similarity`: Jaccard similarity of the word
sets, with `0.0` when either word set is empty. -/
def calculate_similarity (t1 t2 : List Char) : ℚ :=
  let words1 := wordSet t1
  let words2 := wordSet t2
  if words1 = ∅ ∨ words2 = ∅ then 0
  else
    let intersection := (words1 ∩ words2).card
    let union := (words1 ∪ words2).card
    if 0 < union then (intersection : ℚ) / (union : ℚ) else 0

/-- The accumulator loop of `ContextComposer._deduplicate_chunks`:
`unique_chunks` is `acc`; a chunk is dropped iff some already-kept chunk
has similarity `> 0.92` with it (the float literal `0.92` is modelled by the
rational `0.92 = 23/25`; no attainable Jaccard value lies between the two). -/
def deduplicate_go (acc : List Chunk) : List Chunk → List Chunk
  | [] => acc
  | c :: rest =>
    if acc.any (fun e => (0.92 : ℚ) < calculate_similarity c.text e.text) then
      deduplicate_go acc rest
    else
      deduplicate_go (acc ++ [c]) rest

/-- `ContextComposer._deduplicate_chunks`. -/
def deduplicate_chunks (l : List Chunk) : List Chunk :=
  if l.length ≤ 1 then l else deduplicate_go [] l

/-- The loop of `ContextComposer._trim_to_budget`: `cur` is
`current_tokens`.  A chunk whose estimate fits is kept whole; otherwise,
if more than 50 tokens of budget remain, the chunk's text is cut to
`remaining_tokens * 4` characters; either way the loop stops there. -/
def trim_go (maxTokens cur : ℕ) : List Chunk → List Chunk
  | [] => []
  | c :: cs =>
    let chunkTokens := c.text.length / 4
    if cur + chunkTokens ≤ maxTokens then
      c :: trim_go maxTokens (cur + chunkTokens) cs
    else
      let remaining := maxTokens - cur
      if 50 < remaining then [{ c with text := c.text.take (remaining * 4) }]
      else []

/-- `ContextComposer._trim_to_budget`. -/
def trim_to_budget (maxTokens : ℕ) (l : List Chunk) : List Chunk :=
  trim_go maxTokens 0 l

/-- `{**chunk, 'label': f'C{i+1}'}` — one step of `_label_chunks`. -/
def set_label (i : ℕ) (c : Chunk) : Chunk :=
  { c with label := some ("C" ++ toString (i + 1)) }

/-- The `enumerate` loop of `ContextComposer._label_chunks`. -/
def label_go (i : ℕ) : List Chunk → List Chunk
  | [] => []
  | c :: cs => set_label i c :: label_go (i + 1) cs

/-- `ContextComposer._label_chunks`. -/
def label_chunks (l : List Chunk) : List Chunk := label_go 0 l

/-- `ContextComposer.compose` for a composer with budget `maxTokens`
(`ContextComposer(max_tokens)`; the retriever passes
`config.max_context_tokens`, default 1100). -/
def compose (maxTokens : ℕ) (chunks : List Chunk) : List Chunk :=
  if chunks = [] then []
  else label_chunks (trim_to_budget maxTokens
          (deduplicate_chunks (sortDescBy (fun c => c.score) chunks)))

/-- Total estimated token count of a chunk list: the sum of
`len(chunk['text']) // 4` (the estimate used by `_trim_to_budget`). -/
def total_estimated_tokens (l : List Chunk) : ℕ :=
  (l.map (fun c => c.text.length / 4)).sum

/-! ## `QueryCache` (src/rag_system/adaptive_rag/caching/query_cache.py)

The `OrderedDict` is modelled as an association list in insertion/recency
order, oldest first (`popitem(last=False)` removes the head; a promoted or
inserted entry is appended at the tail).  Keys in the list are unique, as in
an `OrderedDict`. -/

structure QueryCache (α : Type) where
  max_size : ℕ
  cache : List (String × α)
  hits : ℕ
  total_queries : ℕ
deriving DecidableEq, Repr

/-- `QueryCache(max_size)`. -/
def QueryCache.empty (α : Type) (maxSize : ℕ) : QueryCache α :=
  { max_size := maxSize, cache := [], hits := 0, total_queries := 0 }

/-- Dictionary lookup (`key in self.cache` / `self.cache[key]`). -/
def cache_lookup (s : QueryCache α) (key : String) : Option α :=
  (s.cache.find? (fun p => p.1 == key)).map (fun p => p.2)

/-- `QueryCache.get`: counts the lookup, and on a hit promotes the entry to
most-recently-used (pop + re-insert at the tail) and counts the hit. -/
def cache_get (s : QueryCache α) (key : String) : QueryCache α × Option α :=
  match cache_lookup s key with
  | some v =>
    ({ s with total_queries := s.total_queries + 1, hits := s.hits + 1,
              cache := s.cache.eraseP (fun p => p.1 == key) ++ [(key, v)] }, some v)
  | none => ({ s with total_queries := s.total_queries + 1 }, none)

/-- `QueryCache.set`: replace-and-promote an existing key; otherwise evict
the least-recently-used entry (the head) first when at capacity, then
append.  (With `max_size = 0` the Python `popitem` on an empty dict would
raise; all uses below have `max_size ≥ 1`.) -/
def cache_set (s : QueryCache α) (key : String) (v : α) : QueryCache α :=
  if (cache_lookup s key).isSome then
    { s with cache := s.cache.eraseP (fun p => p.1 == key) ++ [(key, v)] }
  else if s.max_size ≤ s.cache.length then
    { s with cache := s.cache.tail ++ [(key, v)] }
  else
    { s with cache := s.cache ++ [(key, v)] }

/-- `QueryCache.get_hit_rate`. -/
def get_hit_rate (s : QueryCache α) : ℚ :=
  if s.total_queries = 0 then 0 else (s.hits : ℚ) / (s.total_queries : ℚ)

/-! ## `AdaptiveConfig` (rag_system/adaptive_rag/config/adaptive_config.py)

The `cache_sizes` dictionary is flattened into three fields.  Integer
tunables are `ℕ`, float tunables are `ℚ`. -/

structure AdaptiveConfig where
  token_cutoff : ℕ := 72
  start_k : ℕ := 3
  widen_by : ℕ := 3
  max_k : ℕ := 12
  relevance_threshold : ℚ := 0.55
  min_relevance : ℚ := 0.35
  max_context_tokens : ℕ := 1100
  max_context_chunks : ℕ := 8
  cache_size_query : ℕ := 500
  cache_size_context : ℕ := 300
  cache_size_pack : ℕ := 20
  model_temperature : ℚ := 0.7
  model_top_p : ℚ := 0.95
  model_max_tokens : ℕ := 1024
  model_repetition_penalty : ℚ := 1.05
  enable_telemetry : Bool := true
  telemetry_log_file : String := "adaptive_rag_telemetry.jsonl"
deriving DecidableEq, Repr

/-- The default `AdaptiveConfig()` (the module-level `ADAPTIVE_CONFIG`
before any environment override). -/
def defaultAdaptiveConfig : AdaptiveConfig := {}

/-- `AdaptiveConfig.__post_init__`: `some msg` models `raise
ValueError(msg)`, `none` models successful validation. -/
def validate_config (c : AdaptiveConfig) : Option String :=
  if c.max_k < c.start_k then some "start_k cannot be greater than max_k"
  else if c.relevance_threshold < c.min_relevance then
    some "relevance_threshold cannot be less than min_relevance"
  else none

/-- One keyword argument of `update_adaptive_config` (a `setattr` on a
known attribute).  The attributes not involved in any validation invariant
(`model_*`, cache sizes, telemetry) are updated the same way and are
omitted for brevity. -/
inductive ConfigUpdate where
  | setTokenCutoff (v : ℕ)
  | setStartK (v : ℕ)
  | setWidenBy (v : ℕ)
  | setMaxK (v : ℕ)
  | setRelevanceThreshold (v : ℚ)
  | setMinRelevance (v : ℚ)
  | setMaxContextTokens (v : ℕ)
  | setMaxContextChunks (v : ℕ)
deriving DecidableEq, Repr

/-- `setattr(ADAPTIVE_CONFIG, key, value)`. -/
def apply_update (c : AdaptiveConfig) : ConfigUpdate → AdaptiveConfig
  | .setTokenCutoff v => { c with token_cutoff := v }
  | .setStartK v => { c with start_k := v }
  | .setWidenBy v => { c with widen_by := v }
  | .setMaxK v => { c with max_k := v }
  | .setRelevanceThreshold v => { c with relevance_threshold := v }
  | .setMinRelevance v => { c with min_relevance := v }
  | .setMaxContextTokens v => { c with max_context_tokens := v }
  | .setMaxContextChunks v => { c with max_context_chunks := v }

/-- The sequence of `setattr`s performed by `update_adaptive_config`. -/
def apply_updates (c : AdaptiveConfig) (us : List ConfigUpdate) : AdaptiveConfig :=
  us.foldl apply_update c

/-- `update_adaptive_config(**kwargs)`: every assignment is performed
first, and only then is `__post_init__` re-run.  The returned pair is the
global configuration as it stands after the call (mutated in place) and the
validation outcome (`some msg` = `ValueError` raised). -/
def update_adaptive_config (c : AdaptiveConfig) (us : List ConfigUpdate) :
    AdaptiveConfig × Option String :=
  let c' := apply_updates c us
  (c', validate_config c')

/-! ## Profiles (src/rag_system/adaptive_rag/config/profiles_config.py) -/

/-- `ProfileConfig`. -/
structure ProfileConfig where
  name : String
  source : String
  index_name : Option String := none
  pack_file : Option String := none
  widenable : Bool := true
  priority : ℕ := 1
  max_chunks : ℕ := 5
  similarity_threshold : ℚ := 0.35
  relevance_boost : ℚ := 0
deriving DecidableEq, Repr

/-- The `defs` profile of `PROFILE_CONFIGS`. -/
def defsProfile : ProfileConfig :=
  { name := "defs", source := "pack", pack_file := some "packs/definitions.json",
    widenable := false, priority := 1, max_chunks := 3, similarity_threshold := 0.4 }

/-- The `theorem` profile of `PROFILE_CONFIGS`. -/
def theoremProfile : ProfileConfig :=
  { name := "theorem", source := "index", index_name := some "theorems",
    widenable := true, priority := 2, max_chunks := 5,
    similarity_threshold := 0.35, relevance_boost := 0.1 }

/-- The `worked` profile of `PROFILE_CONFIGS`. -/
def workedProfile : ProfileConfig :=
  { name := "worked", source := "index", index_name := some "worked_examples",
    widenable := true, priority := 3, max_chunks := 4, similarity_threshold := 0.35 }

/-- The `general` profile of `PROFILE_CONFIGS`. -/
def generalProfile : ProfileConfig :=
  { name := "general", source := "index", index_name := some "general",
    widenable := true, priority := 4, max_chunks := 6, similarity_threshold := 0.3 }

/-- `get_profile_config` over the default registry (`none` models the
`ValueError` for an unknown profile). -/
def get_profile_config (name : String) : Option ProfileConfig :=
  if name = "defs" then some defsProfile
  else if name = "theorem" then some theoremProfile
  else if name = "worked" then some workedProfile
  else if name = "general" then some generalProfile
  else none

/-! ## `DynamicRetriever`
(rag_system/adaptive_rag/retrieval/dynamic_search.py)

The FAISS index, the embedding model and the on-disk pack file are external
to the program; they are modelled as parameters of a `RetrieverEnv`:
`search n` returns the `(similarity, index)` pairs of an `index.search`
requesting `n` neighbours, and `packData` is the parsed JSON content of the
profile's pack file.  Side effects relevant to the claims are recorded in
an `Effect` trace. -/

/-- One record of a pack JSON file; `item.get('id', ...)` and
`item.get('text', '')` make both keys optional. -/
structure PackItem where
  id : Option String
  text : Option (List Char)
deriving DecidableEq, Repr

/-- One intermediate search result of `_retrieve_from_index` (the
`relevant_results` / `all_results` dictionaries).  `similarity` already
includes the profile's `relevance_boost`, exactly as in the source. -/
structure IndexSearchResult where
  filename : String
  content : List Char
  similarity : ℚ
  index : ℕ
deriving DecidableEq, Repr

/-- The filtering loop over `zip(similarities[0], indices[0])`: keep hits
with raw similarity `≥ profile.similarity_threshold` and boost them.  FAISS
returns in-range indices; element lookup is modelled with `getD`. -/
def kept_results (pc : ProfileConfig) (mdFilenames : List String)
    (mdChunks : List (List Char)) (hits : List (ℚ × ℕ)) : List IndexSearchResult :=
  hits.filterMap (fun h =>
    if pc.similarity_threshold ≤ h.1 then
      some { filename := mdFilenames.getD h.2 "", content := mdChunks.getD h.2 [],
             similarity := h.1 + pc.relevance_boost, index := h.2 }
    else none)

/-- `RelevanceScorer.mean_relevance`
(RAG_system/adaptive_rag/retrieval/relevance.py): mean of the `similarity`
values, `0.0` for an empty list. -/
def mean_relevance (rs : List IndexSearchResult) : ℚ :=
  if rs.length = 0 then 0
  else (rs.map (fun r => r.similarity)).sum / (rs.length : ℚ)

/-- The chunk-format conversion loop at the end of `_retrieve_from_index`
(`enumerate(relevant_results)`). -/
def index_chunks_go (i : ℕ) : List IndexSearchResult → List Chunk
  | [] => []
  | r :: rs =>
    { id := r.filename, text := r.content, source := "index", score := r.similarity,
      label := some ("C" ++ toString (i + 1)) } :: index_chunks_go (i + 1) rs

/-- The result of `_retrieve_from_index`, with the list of neighbour counts
requested from the index (`search_requests`) recording how many searches
were performed and with which `k`. -/
structure IndexRetrieval where
  chunks : List Chunk
  used_widening : Bool
  search_requests : List ℕ
deriving DecidableEq, Repr

/-- `DynamicRetriever._retrieve_from_index` (with the effective
configuration `cfg`, i.e. `config or self.config`). -/
def retrieve_from_index (cfg : AdaptiveConfig) (pc : ProfileConfig) (k : ℕ)
    (search : ℕ → List (ℚ × ℕ)) (mdChunks : List (List Char))
    (mdFilenames : List String) : IndexRetrieval :=
  let startK := min k cfg.start_k
  let initial := kept_results pc mdFilenames mdChunks (search startK)
  if pc.widenable = true ∧ mean_relevance initial < cfg.relevance_threshold ∧
      initial.length < k then
    let widerK := min (startK + cfg.widen_by) (min k mdChunks.length)
    let wide := kept_results pc mdFilenames mdChunks (search widerK)
    let top := (sortDescBy (fun r => r.similarity) wide).take k
    { chunks := index_chunks_go 0 top, used_widening := true,
      search_requests := [startK, widerK] }
  else
    { chunks := index_chunks_go 0 initial, used_widening := false,
      search_requests := [startK] }

/-- The pack-to-chunk conversion loop of `_retrieve_from_pack`
(`enumerate(pack_data)`): every record becomes a chunk with score `1.0`. -/
def pack_chunks_go (i : ℕ) : List PackItem → List Chunk
  | [] => []
  | it :: rest =>
    { id := it.id.getD ("pack_" ++ toString i), text := it.text.getD [],
      source := "pack", score := 1, label := some ("C" ++ toString (i + 1)) }
      :: pack_chunks_go (i + 1) rest

/-- `DynamicRetriever._retrieve_from_pack` applied to the parsed pack
file content (path resolution and default-pack creation are filesystem
I/O, outside the model; the `packLoad` effect marks that the file was
read). -/
def retrieve_from_pack (packData : List PackItem) : List Chunk :=
  pack_chunks_go 0 packData

/-- The side effects of a `retrieve` call that the claims talk about. -/
inductive Effect where
  /-- `self.index.search(embedding, k)` requesting `k` neighbours. -/
  | searchCall (k : ℕ)
  /-- reading the profile's pack file. -/
  | packLoad
  /-- `self.context_composer.compose(chunks)` on the candidate list. -/
  | composeCall (input : List Chunk)
deriving DecidableEq, Repr

/-- The environment of a `DynamicRetriever`: configuration, profile
registry, index search, loaded index data, and pack-file content. -/
structure RetrieverEnv where
  cfg : AdaptiveConfig
  profiles : String → Option ProfileConfig
  search : ℕ → List (ℚ × ℕ)
  mdChunks : List (List Char)
  mdFilenames : List String
  packData : List PackItem

/-- `DynamicRetriever.retrieve`.  Returns `none` when the profile is
unknown (`get_profile_config` raises).  Otherwise returns the composed
chunk list, the updated query cache, and the trace of effects performed
after the cache probe.  `kArg = none` is Python `k=None`; `k or
profile_config.max_chunks` makes `0` fall back to `max_chunks` too.  The
cached value short-circuits only when it is truthy, i.e. a non-empty
list. -/
def retrieve (env : RetrieverEnv) (cache : QueryCache (List Chunk))
    (query : String) (profileName : String) (kArg : Option ℕ) :
    Option (List Chunk × QueryCache (List Chunk) × List Effect) :=
  match env.profiles profileName with
  | none => none
  | some pc =>
    let k := match kArg with
      | none => pc.max_chunks
      | some 0 => pc.max_chunks
      | some n => n
    let key := profileName ++ "::" ++ query
    let probed := cache_get cache key
    match probed.2 with
    | some (c :: rest) => some (c :: rest, probed.1, [])
    | _ =>
      let step : List Chunk × List Effect :=
        if pc.source = "pack" then
          (retrieve_from_pack env.packData, [Effect.packLoad])
        else
          let r := retrieve_from_index env.cfg pc k env.search env.mdChunks env.mdFilenames
          (r.chunks, r.search_requests.map Effect.searchCall)
      let composed := compose env.cfg.max_context_tokens step.1
      some (composed, cache_set probed.1 key composed,
            step.2 ++ [Effect.composeCall step.1])

/-! ## Theorems -/

/-- The literal query of the repository's "simple query" test. -/
def queryWhatIs : List Char := "What is 2 + 2?".data

/-- The literal query of the repository's "complex query" test. -/
def queryProveCLT : List Char :=
  "Prove the Central Limit Theorem and explain its applications in probability theory".data

set_option maxRecDepth 10000 in
/-- C1 (code evaluation at the failing input): under the default
configuration and with no metadata, `analyze_query` recommends `"rag"` for
BOTH literal queries, whether or not the embedding model loaded.  For
`"What is 2 + 2?"` the complexity score is `493/1500 ≈ 0.329` (embedding
model present) or `193/600 ≈ 0.322` (absent) with confidence `0.9`, and
`0.3 ≤ score < 0.6` routes to `"rag"` — the claimed `"direct"` outcome,
which the repository's own test docstring also expects, never occurs. -/
theorem c1_both_queries_route_to_rag :
    ∀ modelLoaded : Bool,
      (analyze_query modelLoaded queryWhatIs).recommendation = "rag" ∧
      (analyze_query modelLoaded queryProveCLT).recommendation = "rag" := by
  with_unfolding_all decide

/-- C6, the confidence formula as the claim states it: the indicator count
capped and normalized (count of five indicators, normalized by 5 and capped
at 1) with weight 0.3.  This follows the claim's words, for comparison with
`calculate_confidence`, which is translated from the source. -/
def claimed_confidence_normalized (f : Features) : ℚ :=
  ratMax (0.1 : ℚ) (ratMin 1 (ratMin ((indicator_count f : ℚ) / 5) 1 * (0.3 : ℚ)
    + ratMin ((f.query_length : ℚ) / 10) 1 * (0.4 : ℚ)
    + ratMin (((f.complex_keywords + f.simple_keywords : ℕ) : ℚ) / 3) 1 * (0.3 : ℚ)))

/-- A feature vector with all five boolean indicators triggered and no
word- or keyword-signal (e.g. from a five-indicator query of zero split
length: the values themselves are what `_calculate_confidence` consumes). -/
def c6Features : Features :=
  { query_length := 0, char_length := 0, has_math := true, complex_keywords := 0,
    simple_keywords := 0, question_type := "general", has_equations := true,
    has_definitions := true, has_proofs := true, has_examples := true,
    semantic_complexity := (0.5 : ℚ) }

/-- C6 (counterexample): with all five indicators triggered and no other
signal, the source computes confidence `clamp(5 * 0.3) = 1.0`, while the
claimed capped-and-normalized indicator term yields
`clamp(min(5/5, 1) * 0.3) = 0.3`.  The code multiplies the *raw* indicator
count by 0.3; it never caps or normalizes it. -/
theorem c6_counterexample :
    calculate_confidence c6Features = 1 ∧
    claimed_confidence_normalized c6Features = 3/10 ∧
    (1 : ℚ) ≠ 3/10 := by
  refine ⟨?_, ?_, ?_⟩ <;> with_unfolding_all decide

/-- C6 (amended): the confidence equals 0.3 times the **raw** count of
triggered boolean indicators among has-math, has-equations,
has-definitions, has-proofs, has-examples (not capped, not normalized),
plus 0.4 times min(word count / 10, 1), plus 0.3 times
min((complex keyword count + simple keyword count) / 3, 1), with the sum
clamped to [0.1, 1.0]. -/
theorem c6_confidence_formula (f : Features) :
    calculate_confidence f =
      max (1/10) (min 1 ((indicator_count f : ℚ) * (3/10)
        + min ((f.query_length : ℚ) / 10) 1 * (4/10)
        + min (((f.complex_keywords : ℚ) + (f.simple_keywords : ℚ)) / 3) 1 * (3/10))) ∧
    1/10 ≤ calculate_confidence f ∧ calculate_confidence f ≤ 1 := by
  have hval : calculate_confidence f =
      max (1/10) (min 1 ((indicator_count f : ℚ) * (3/10)
        + min ((f.query_length : ℚ) / 10) 1 * (4/10)
        + min (((f.complex_keywords : ℚ) + (f.simple_keywords : ℚ)) / 3) 1 * (3/10))) := by
    simp only [calculate_confidence, ratMin_eq, ratMax_eq]
    norm_num
  refine ⟨hval, ?_, ?_⟩
  · rw [hval]; exact le_max_left _ _
  · rw [hval]
    exact max_le (by norm_num) (min_le_left _ _)

/-- C7 (counterexample): updating the default configuration with
`start_k = 20` raises the validation error, but the configuration does not
retain its prior values — `start_k` is already mutated to 20 when
`__post_init__` re-runs, and no rollback happens. -/
theorem c7_counterexample :
    (update_adaptive_config defaultAdaptiveConfig [ConfigUpdate.setStartK 20]).2 ≠ none ∧
    (update_adaptive_config defaultAdaptiveConfig [ConfigUpdate.setStartK 20]).1 ≠
      defaultAdaptiveConfig := by
  refine ⟨?_, ?_⟩ <;> with_unfolding_all decide

/-- C7 (amended): for every configuration update whose resulting values
would violate `start_k ≤ max_k` or `relevance_threshold ≥ min_relevance`,
the update operation raises a configuration error, but the configuration
keeps the newly assigned values: every `setattr` precedes the re-validation
and a rejected update performs no rollback. -/
theorem c7_update_validates_after_mutation (c : AdaptiveConfig) (us : List ConfigUpdate)
    (h : ¬ ((apply_updates c us).start_k ≤ (apply_updates c us).max_k ∧
            (apply_updates c us).min_relevance ≤ (apply_updates c us).relevance_threshold)) :
    (update_adaptive_config c us).2 ≠ none ∧
    (update_adaptive_config c us).1 = apply_updates c us := by
  refine ⟨?_, rfl⟩
  have hor : (apply_updates c us).max_k < (apply_updates c us).start_k ∨
      (apply_updates c us).relevance_threshold < (apply_updates c us).min_relevance := by
    rcases not_and_or.mp h with h1 | h1
    · exact Or.inl (not_le.mp h1)
    · exact Or.inr (not_le.mp h1)
  show validate_config (apply_updates c us) ≠ none
  unfold validate_config
  rcases hor with h1 | h1
  · simp [h1]
  · split
    · simp
    · simp [h1]

/-- Witness for C7: the concrete rejected update `start_k := 20` on the
default configuration. -/
theorem c7_update_validates_after_mutation_witness :
    (update_adaptive_config defaultAdaptiveConfig [ConfigUpdate.setStartK 20]).2 ≠ none ∧
    (update_adaptive_config defaultAdaptiveConfig [ConfigUpdate.setStartK 20]).1 =
      apply_updates defaultAdaptiveConfig [ConfigUpdate.setStartK 20] :=
  c7_update_validates_after_mutation defaultAdaptiveConfig [ConfigUpdate.setStartK 20]
    (by with_unfolding_all decide)

/-! ### Cache lemmas for C8 -/

/-- Inserting a sequence of keys with `QueryCache.set`, each key taking the
value `f k` (the scenario of C8). -/
def insert_all (f : String → α) (ks : List String) (s : QueryCache α) : QueryCache α :=
  ks.foldl (fun t k => cache_set t k (f k)) s

theorem cache_lookup_eq_none (s : QueryCache α) (k : String)
    (hk : k ∉ s.cache.map Prod.fst) : cache_lookup s k = none := by
  unfold cache_lookup
  rw [List.find?_eq_none.mpr]
  · rfl
  · intro p hp
    simp only [beq_iff_eq]
    intro hpk
    exact hk (List.mem_map.mpr ⟨p, hp, hpk⟩)

theorem cache_set_fresh (s : QueryCache α) (k : String) (v : α)
    (hk : k ∉ s.cache.map Prod.fst) (hlen : s.cache.length < s.max_size) :
    cache_set s k v = { s with cache := s.cache ++ [(k, v)] } := by
  unfold cache_set
  rw [cache_lookup_eq_none s k hk]
  simp [Nat.not_le.mpr hlen]

theorem cache_set_evict (s : QueryCache α) (k : String) (v : α)
    (hk : k ∉ s.cache.map Prod.fst) (hlen : s.max_size ≤ s.cache.length) :
    cache_set s k v = { s with cache := s.cache.tail ++ [(k, v)] } := by
  unfold cache_set
  rw [cache_lookup_eq_none s k hk]
  simp [hlen]

theorem tail_append_of_ne_nil (l l₂ : List β) (h : l ≠ []) :
    (l ++ l₂).tail = l.tail ++ l₂ := by
  cases l with
  | nil => exact absurd rfl h
  | cons a t => rfl

/-- Inserting `max_size + 1 - |cache|` fresh, pairwise-distinct keys into a
cache (capacity at least 1) evicts exactly the head entry: the result is
the old cache extended with all new pairs, minus its first element. -/
theorem insert_all_evicts_head (f : String → α) :
    ∀ (ks : List String) (s : QueryCache α),
      ks ≠ [] →
      (∀ k ∈ ks, k ∉ s.cache.map Prod.fst) →
      ks.Nodup →
      s.cache.length + ks.length = s.max_size + 1 →
      1 ≤ s.max_size →
      (insert_all f ks s).cache = (s.cache ++ ks.map (fun k => (k, f k))).tail
  | [], _, hne, _, _, _, _ => absurd rfl hne
  | [k], s, _, hfresh, _, hlen, hmax => by
    have hklen : s.max_size ≤ s.cache.length := by
      simp only [List.length_singleton] at hlen; omega
    have hcne : s.cache ≠ [] := by
      intro hnil
      rw [hnil] at hlen
      simp only [List.length_nil, List.length_singleton] at hlen
      omega
    unfold insert_all
    simp only [List.foldl_cons, List.foldl_nil]
    rw [cache_set_evict s k (f k) (hfresh k (List.mem_singleton.mpr rfl)) hklen]
    simp only [List.map_cons, List.map_nil]
    rw [tail_append_of_ne_nil _ _ hcne]
  | k :: k' :: ks, s, _, hfresh, hnd, hlen, hmax => by
    have hlt : s.cache.length < s.max_size := by
      simp only [List.length_cons] at hlen; omega
    have step : insert_all f (k :: k' :: ks) s =
        insert_all f (k' :: ks) { s with cache := s.cache ++ [(k, f k)] } := by
      unfold insert_all
      simp only [List.foldl_cons]
      rw [cache_set_fresh s k (f k) (hfresh k (List.mem_cons_self _ _)) hlt]
    rw [step]
    have hih := insert_all_evicts_head f (k' :: ks)
      { s with cache := s.cache ++ [(k, f k)] }
      (by simp)
      (by
        intro k₂ hk₂
        simp only [List.map_append, List.mem_append, List.map_cons, List.map_nil,
          List.mem_singleton, not_or]
        refine ⟨hfresh k₂ (List.mem_cons_of_mem _ hk₂), ?_⟩
        intro hkk
        rw [hkk] at hk₂
        exact (List.nodup_cons.mp hnd).1 hk₂)
      (List.nodup_cons.mp hnd).2
      (by simp only [List.length_cons] at hlen
          show (s.cache ++ [(k, f k)]).length + (k' :: ks).length = s.max_size + 1
          simp only [List.length_append, List.length_singleton, List.length_cons, List.length_nil]
          omega)
      hmax
    rw [hih]
    simp only [List.map_cons, List.append_assoc, List.singleton_append]

/-- C8: starting from an empty cache of capacity `c ≥ 1`, inserting `c + 1`
distinct keys leaves exactly the keys after the first, in insertion order,
and the first-inserted (least-recently-accessed) key is gone; the hit rate
is `hits / total lookups` whenever a lookup has occurred, is refreshed by
every `get` (whose state has one more lookup and, on a hit, one more hit),
and is `0.0` on a cache that has seen no lookup. -/
theorem c8_lru_eviction_and_hit_rate (f : String → α) (c : ℕ) (ks : List String)
    (hc : 0 < c) (hlen : ks.length = c + 1) (hnd : ks.Nodup) :
    (insert_all f ks (QueryCache.empty α c)).cache =
        (ks.drop 1).map (fun k => (k, f k)) ∧
    (∀ hne : ks ≠ [], ks.head hne ∉
        ((insert_all f ks (QueryCache.empty α c)).cache.map Prod.fst)) ∧
    (∀ s : QueryCache α, s.total_queries ≠ 0 →
        get_hit_rate s = (s.hits : ℚ) / (s.total_queries : ℚ)) ∧
    (∀ (s : QueryCache α) (key : String),
        get_hit_rate (cache_get s key).1 =
          ((cache_get s key).1.hits : ℚ) / ((s.total_queries : ℚ) + 1)) ∧
    get_hit_rate (QueryCache.empty α c) = 0 := by
  have hne : ks ≠ [] := by
    intro h; rw [h] at hlen; simp at hlen
  have hmain : (insert_all f ks (QueryCache.empty α c)).cache =
      (ks.drop 1).map (fun k => (k, f k)) := by
    have h := insert_all_evicts_head f ks (QueryCache.empty α c) hne
      (by intro k _; simp [QueryCache.empty])
      hnd
      (by simp [QueryCache.empty, hlen])
      (by simpa [QueryCache.empty] using hc)
    rw [h]
    simp only [QueryCache.empty, List.nil_append]
    cases ks with
    | nil => simp
    | cons a t => simp
  refine ⟨hmain, ?_, ?_, ?_, ?_⟩
  · intro hne'
    rw [hmain]
    simp only [List.map_map]
    cases ks with
    | nil => exact absurd rfl hne'
    | cons a t =>
      simp only [List.head_cons, List.drop_succ_cons, List.drop_zero]
      intro hmem
      have : a ∈ t := by simpa using hmem
      exact (List.nodup_cons.mp hnd).1 this
  · intro s hs
    simp [get_hit_rate, hs]
  · intro s key
    unfold cache_get
    cases hlu : cache_lookup s key with
    | some v =>
      simp only [get_hit_rate]
      have : s.total_queries + 1 ≠ 0 := Nat.succ_ne_zero _
      simp only [this, if_false]
      push_cast
      ring_nf
    | none =>
      simp only [get_hit_rate]
      have : s.total_queries + 1 ≠ 0 := Nat.succ_ne_zero _
      simp only [this, if_false]
      push_cast
      ring_nf
  · simp [get_hit_rate, QueryCache.empty]

/-- Witness for C8: capacity 1, keys `["a", "b"]`; `"a"` is evicted and a
cache with 2 hits out of 4 lookups reports rate `2/4`. -/
theorem c8_lru_eviction_and_hit_rate_witness :
    (insert_all (fun _ => (0 : ℕ)) ["a", "b"] (QueryCache.empty ℕ 1)).cache =
        ((["a", "b"].drop 1).map (fun k => (k, 0))) ∧
    get_hit_rate (⟨5, [], 2, 4⟩ : QueryCache ℕ) =
        (((⟨5, [], 2, 4⟩ : QueryCache ℕ).hits : ℚ) /
          ((⟨5, [], 2, 4⟩ : QueryCache ℕ).total_queries : ℚ)) ∧
    get_hit_rate (QueryCache.empty ℕ 1) = 0 := by
  obtain ⟨h1, _, h3, _, h5⟩ := c8_lru_eviction_and_hit_rate (fun _ => (0 : ℕ)) 1 ["a", "b"]
    (by decide) (by decide) (by decide)
  exact ⟨h1, h3 _ (by decide), h5⟩

/-! ### Sorting, deduplication, trimming and labelling lemmas
(infrastructure for C3, C4, C5, C9) -/

theorem mem_insertDescBy (key : α → ℚ) (a x : α) :
    ∀ l : List α, x ∈ insertDescBy key a l → x = a ∨ x ∈ l
  | [], h => by simpa [insertDescBy] using h
  | b :: l, h => by
    simp only [insertDescBy] at h
    by_cases hc : key b ≤ key a
    · rw [if_pos hc] at h
      exact List.mem_cons.mp h
    · rw [if_neg hc] at h
      rcases List.mem_cons.mp h with rfl | h2
      · exact Or.inr (List.mem_cons_self _ _)
      · rcases mem_insertDescBy key a x l h2 with h3 | h3
        · exact Or.inl h3
        · exact Or.inr (List.mem_cons_of_mem _ h3)

theorem insertDescBy_pairwise (key : α → ℚ) (a : α) :
    ∀ l : List α, l.Pairwise (fun x y => key y ≤ key x) →
      (insertDescBy key a l).Pairwise (fun x y => key y ≤ key x)
  | [], _ => by simp [insertDescBy]
  | b :: l, h => by
    simp only [insertDescBy]
    by_cases hc : key b ≤ key a
    · rw [if_pos hc]
      refine List.Pairwise.cons ?_ h
      intro y hy
      rcases List.mem_cons.mp hy with rfl | hy2
      · exact hc
      · exact le_trans ((List.pairwise_cons.mp h).1 y hy2) hc
    · rw [if_neg hc, List.pairwise_cons]
      refine ⟨?_, insertDescBy_pairwise key a l (List.pairwise_cons.mp h).2⟩
      intro y hy
      rcases mem_insertDescBy key a y l hy with rfl | hy2
      · exact le_of_lt (not_le.mp hc)
      · exact (List.pairwise_cons.mp h).1 y hy2

theorem sortDescBy_pairwise (key : α → ℚ) :
    ∀ l : List α, (sortDescBy key l).Pairwise (fun x y => key y ≤ key x)
  | [] => by simp [sortDescBy]
  | a :: l => insertDescBy_pairwise key a _ (sortDescBy_pairwise key l)

theorem sortDescBy_eq_self (key : α → ℚ) :
    ∀ l : List α, l.Pairwise (fun x y => key y ≤ key x) → sortDescBy key l = l
  | [], _ => rfl
  | a :: l, h => by
    obtain ⟨hhead, htail⟩ := List.pairwise_cons.mp h
    simp only [sortDescBy, sortDescBy_eq_self key l htail]
    cases l with
    | nil => rfl
    | cons b t => simp [insertDescBy, hhead b (List.mem_cons_self _ _)]

/-- The relation guaranteed by `_deduplicate_chunks` between an earlier
kept chunk `a` and a later kept chunk `b`: the similarity the code computed
when it admitted `b` was not above the threshold. -/
def DedupOk (a b : Chunk) : Prop :=
  calculate_similarity b.text a.text ≤ (0.92 : ℚ)

theorem deduplicate_go_pairwise :
    ∀ (l acc : List Chunk), acc.Pairwise DedupOk →
      (deduplicate_go acc l).Pairwise DedupOk
  | [], acc, h => h
  | c :: rest, acc, h => by
    simp only [deduplicate_go]
    by_cases hany :
        (acc.any fun e => decide ((0.92 : ℚ) < calculate_similarity c.text e.text)) = true
    · rw [if_pos hany]
      exact deduplicate_go_pairwise rest acc h
    · rw [if_neg hany]
      refine deduplicate_go_pairwise rest (acc ++ [c]) ?_
      rw [List.pairwise_append]
      refine ⟨h, List.pairwise_singleton _ _, ?_⟩
      intro a ha b hb
      rw [List.mem_singleton.mp hb]
      simp only [Bool.not_eq_true] at hany
      have := List.any_eq_false.mp hany a ha
      simp only [decide_eq_true_eq] at this
      exact not_lt.mp this

theorem deduplicate_go_length :
    ∀ (l acc : List Chunk), (deduplicate_go acc l).length ≤ acc.length + l.length
  | [], acc => by simp [deduplicate_go]
  | c :: rest, acc => by
    simp only [deduplicate_go]
    split
    · have := deduplicate_go_length rest acc
      simp only [List.length_cons]
      omega
    · have := deduplicate_go_length rest (acc ++ [c])
      simp only [List.length_append, List.length_singleton, List.length_cons,
        List.length_nil] at this ⊢
      omega

theorem deduplicate_go_eq_append_sublist :
    ∀ (l acc : List Chunk), ∃ l', List.Sublist l' l ∧ deduplicate_go acc l = acc ++ l'
  | [], acc => ⟨[], List.Sublist.refl _, by simp [deduplicate_go]⟩
  | c :: rest, acc => by
    simp only [deduplicate_go]
    split
    · obtain ⟨l', hsub, heq⟩ := deduplicate_go_eq_append_sublist rest acc
      exact ⟨l', hsub.cons c, heq⟩
    · obtain ⟨l', hsub, heq⟩ := deduplicate_go_eq_append_sublist rest (acc ++ [c])
      exact ⟨c :: l', hsub.cons₂ c, by rw [heq, List.append_assoc, List.singleton_append]⟩

theorem deduplicate_go_of_pairwise :
    ∀ (l acc : List Chunk),
      (∀ c ∈ l, ∀ e ∈ acc, calculate_similarity c.text e.text ≤ (0.92 : ℚ)) →
      l.Pairwise DedupOk →
      deduplicate_go acc l = acc ++ l
  | [], acc, _, _ => by simp [deduplicate_go]
  | c :: rest, acc, hcross, hpair => by
    simp only [deduplicate_go]
    have hany : acc.any (fun e => decide ((0.92 : ℚ) < calculate_similarity c.text e.text)) = false := by
      rw [List.any_eq_false]
      intro e he
      simp only [decide_eq_true_eq, not_lt]
      exact hcross c (List.mem_cons_self _ _) e he
    rw [if_neg (by simp [hany])]
    rw [deduplicate_go_of_pairwise rest (acc ++ [c])
      (by
        intro c₂ hc₂ e he
        rcases List.mem_append.mp he with he2 | he2
        · exact hcross c₂ (List.mem_cons_of_mem _ hc₂) e he2
        · rw [List.mem_singleton.mp he2]
          exact (List.pairwise_cons.mp hpair).1 c₂ hc₂)
      (List.pairwise_cons.mp hpair).2]
    rw [List.append_assoc, List.singleton_append]

theorem pairwise_of_length_le_one {R : Chunk → Chunk → Prop} (l : List Chunk)
    (h : l.length ≤ 1) : l.Pairwise R := by
  cases l with
  | nil => exact List.Pairwise.nil
  | cons a t =>
    cases t with
    | nil => exact List.pairwise_singleton _ _
    | cons b t₂ => simp at h

theorem deduplicate_chunks_pairwise (l : List Chunk) :
    (deduplicate_chunks l).Pairwise DedupOk := by
  unfold deduplicate_chunks
  split
  · exact pairwise_of_length_le_one l (by assumption)
  · exact deduplicate_go_pairwise l [] List.Pairwise.nil

theorem deduplicate_chunks_length (l : List Chunk) :
    (deduplicate_chunks l).length ≤ l.length := by
  unfold deduplicate_chunks
  split
  · exact le_refl _
  · simpa using deduplicate_go_length l []

theorem deduplicate_chunks_sublist (l : List Chunk) :
    List.Sublist (deduplicate_chunks l) l := by
  unfold deduplicate_chunks
  split
  · exact List.Sublist.refl _
  · obtain ⟨l', hsub, heq⟩ := deduplicate_go_eq_append_sublist l []
    rw [heq, List.nil_append]
    exact hsub

theorem deduplicate_chunks_eq_self (l : List Chunk) (h : l.Pairwise DedupOk) :
    deduplicate_chunks l = l := by
  unfold deduplicate_chunks
  split
  · rfl
  · rw [deduplicate_go_of_pairwise l [] (by intro c _ e he; simp at he) h,
      List.nil_append]

theorem calculate_similarity_comm (t1 t2 : List Char) :
    calculate_similarity t1 t2 = calculate_similarity t2 t1 := by
  have h2 : ∀ p q : Prop, ¬ (p ∨ q) → ¬ (q ∨ p) := fun p q hn hc => hn (Or.symm hc)
  simp only [calculate_similarity]
  by_cases h : wordSet t1 = ∅ ∨ wordSet t2 = ∅
  · rw [if_pos h, if_pos (Or.symm h)]
  · rw [if_neg h, if_neg (h2 _ _ h),
      Finset.inter_comm (wordSet t1) (wordSet t2),
      Finset.union_comm (wordSet t1) (wordSet t2)]

@[simp] theorem total_estimated_tokens_nil : total_estimated_tokens [] = 0 := rfl

@[simp] theorem total_estimated_tokens_cons (c : Chunk) (l : List Chunk) :
    total_estimated_tokens (c :: l) = c.text.length / 4 + total_estimated_tokens l := by
  simp [total_estimated_tokens]

theorem trim_go_tokens_le (m : ℕ) :
    ∀ (l : List Chunk) (cur : ℕ), cur ≤ m →
      total_estimated_tokens (trim_go m cur l) + cur ≤ m
  | [], cur, h => by simpa [trim_go] using h
  | c :: cs, cur, h => by
    simp only [trim_go]
    split
    · have hrec := trim_go_tokens_le m cs (cur + c.text.length / 4) (by assumption)
      simp only [total_estimated_tokens_cons]
      omega
    · split
      · simp only [total_estimated_tokens_cons, total_estimated_tokens_nil]
        have htake : ((c.text.take ((m - cur) * 4)).length) ≤ (m - cur) * 4 := by
          rw [List.length_take]
          exact min_le_left _ _
        have : (c.text.take ((m - cur) * 4)).length / 4 ≤ (m - cur) := by
          calc (c.text.take ((m - cur) * 4)).length / 4
              ≤ ((m - cur) * 4) / 4 := Nat.div_le_div_right htake
            _ = m - cur := Nat.mul_div_cancel _ (by norm_num)
        omega
      · simp only [total_estimated_tokens_nil]
        omega

theorem trim_go_eq_self (m : ℕ) :
    ∀ (l : List Chunk) (cur : ℕ), cur + total_estimated_tokens l ≤ m →
      trim_go m cur l = l
  | [], _, _ => rfl
  | c :: cs, cur, h => by
    simp only [total_estimated_tokens_cons] at h
    simp only [trim_go]
    rw [if_pos (by omega)]
    rw [trim_go_eq_self m cs (cur + c.text.length / 4) (by omega)]

@[simp] theorem set_label_score (i : ℕ) (c : Chunk) : (set_label i c).score = c.score := rfl

@[simp] theorem set_label_text (i : ℕ) (c : Chunk) : (set_label i c).text = c.text := rfl

theorem set_label_set_label (i j : ℕ) (c : Chunk) :
    set_label i (set_label j c) = set_label i c := rfl

theorem mem_label_go (y : Chunk) :
    ∀ (l : List Chunk) (i : ℕ), y ∈ label_go i l → ∃ x ∈ l, ∃ j, y = set_label j x
  | [], i, h => by simp [label_go] at h
  | c :: cs, i, h => by
    simp only [label_go, List.mem_cons] at h
    rcases h with rfl | h
    · exact ⟨c, List.mem_cons_self _ _, i, rfl⟩
    · obtain ⟨x, hx, j, hy⟩ := mem_label_go y cs (i + 1) h
      exact ⟨x, List.mem_cons_of_mem _ hx, j, hy⟩

theorem label_go_pairwise {R : Chunk → Chunk → Prop}
    (hR : ∀ (a b : Chunk) (i j : ℕ), R a b → R (set_label i a) (set_label j b)) :
    ∀ (l : List Chunk) (i : ℕ), l.Pairwise R → (label_go i l).Pairwise R
  | [], _, _ => List.Pairwise.nil
  | c :: cs, i, h => by
    obtain ⟨hhead, htail⟩ := List.pairwise_cons.mp h
    simp only [label_go]
    refine List.Pairwise.cons ?_ (label_go_pairwise hR cs (i + 1) htail)
    intro y hy
    obtain ⟨x, hx, j, rfl⟩ := mem_label_go y cs (i + 1) hy
    exact hR c x i j (hhead x hx)

theorem label_go_label_go : ∀ (l : List Chunk) (i : ℕ),
    label_go i (label_go i l) = label_go i l
  | [], _ => rfl
  | c :: cs, i => by
    simp only [label_go, set_label_set_label]
    rw [label_go_label_go cs (i + 1)]

theorem total_label_go : ∀ (l : List Chunk) (i : ℕ),
    total_estimated_tokens (label_go i l) = total_estimated_tokens l
  | [], _ => rfl
  | c :: cs, i => by
    simp only [label_go, total_estimated_tokens_cons, set_label_text]
    rw [total_label_go cs (i + 1)]

theorem label_go_eq_nil_iff (l : List Chunk) (i : ℕ) :
    label_go i l = [] ↔ l = [] := by
  cases l with
  | nil => simp [label_go]
  | cons c cs => simp [label_go]

/-- C4: for every input chunk list, the composed list's total estimated
token count (sum of `len(text) // 4`) is at most `max_tokens`; and a single
chunk larger than the whole budget (with a budget above the 50-token
truncation floor, as the default 1100 is) is truncated so that its
estimated size is exactly `max_tokens`, and is returned alone. -/
theorem c4_compose_within_budget (m : ℕ) (chunks : List Chunk) (c : Chunk)
    (h50 : 50 < m) (hbig : m < c.text.length / 4) :
    total_estimated_tokens (compose m chunks) ≤ m ∧
    total_estimated_tokens (compose m [c]) = m ∧
    (compose m [c]).length = 1 := by
  have hbound : ∀ l : List Chunk, total_estimated_tokens (compose m l) ≤ m := by
    intro l
    unfold compose
    split
    · simp
    · unfold label_chunks trim_to_budget
      rw [total_label_go]
      have h := trim_go_tokens_le m
        (deduplicate_chunks (sortDescBy (fun x => x.score) l)) 0 (Nat.zero_le m)
      omega
  have hmul : (m + 1) * 4 ≤ c.text.length := by
    have h1 : m + 1 ≤ c.text.length / 4 := hbig
    rwa [Nat.le_div_iff_mul_le (by norm_num)] at h1
  have hsingle : compose m [c] = label_go 0 [{ c with text := c.text.take (m * 4) }] := by
    unfold compose
    rw [if_neg (by simp)]
    have hd : deduplicate_chunks (sortDescBy (fun x : Chunk => x.score) [c]) = [c] := by
      have hs : sortDescBy (fun x : Chunk => x.score) [c] = [c] := rfl
      rw [hs]
      unfold deduplicate_chunks
      simp
    rw [hd]
    unfold label_chunks trim_to_budget
    simp only [trim_go]
    rw [if_neg (by omega), if_pos (by omega : 50 < m - 0)]
    simp
  refine ⟨hbound chunks, ?_, ?_⟩
  · rw [hsingle, total_label_go]
    simp only [total_estimated_tokens_cons, total_estimated_tokens_nil, List.length_take]
    have hmin : min (m * 4) c.text.length = m * 4 := min_eq_left (by omega)
    rw [hmin, Nat.mul_div_cancel _ (by norm_num)]
    omega
  · rw [hsingle]
    simp [label_go]

/-- Witness for C4: the default budget 1100 and a 4404-character chunk
(estimated 1101 tokens, above the budget). -/
theorem c4_compose_within_budget_witness :
    total_estimated_tokens (compose 1100
        [{ id := "big", text := List.replicate 4404 'x', source := "index",
           score := 1, label := none }]) ≤ 1100 ∧
    total_estimated_tokens (compose 1100
        [{ id := "big", text := List.replicate 4404 'x', source := "index",
           score := 1, label := none }]) = 1100 ∧
    (compose 1100
        [{ id := "big", text := List.replicate 4404 'x', source := "index",
           score := 1, label := none }]).length = 1 :=
  c4_compose_within_budget 1100
    [{ id := "big", text := List.replicate 4404 'x', source := "index",
       score := 1, label := none }]
    { id := "big", text := List.replicate 4404 'x', source := "index",
      score := 1, label := none }
    (by norm_num)
    (by simp only [List.length_replicate]; norm_num)

/-- C5: deduplication never grows the list, and every pair of distinct
retained chunks has word-set Jaccard similarity (as computed by
`_calculate_similarity`: case-insensitive whitespace tokenization, set
semantics, `0.0` for an empty word set) at most `0.92`, in both
orientations. -/
theorem c5_dedup_bounded_similarity (chunks : List Chunk) :
    (deduplicate_chunks chunks).length ≤ chunks.length ∧
    (deduplicate_chunks chunks).Pairwise (fun a b =>
      calculate_similarity a.text b.text ≤ (0.92 : ℚ) ∧
      calculate_similarity b.text a.text ≤ (0.92 : ℚ)) := by
  refine ⟨deduplicate_chunks_length chunks, ?_⟩
  refine (deduplicate_chunks_pairwise chunks).imp ?_
  intro a b hab
  exact ⟨le_of_eq_of_le (calculate_similarity_comm a.text b.text) hab, hab⟩

/-- The two chunks of the C9 counterexample: `c9ChunkB`'s text starts with
`c9ChunkA`'s two words, continues with spaces, and ends with one extra
word.  Against a composer with budget 60 (`max_tokens` is the
`ContextComposer` constructor parameter; the same failure occurs at the
default 1100 with a 4396-character chunk), `c9ChunkB` survives
deduplication (Jaccard 2/3) but is truncated to its first 236 characters,
whose word set then coincides with `c9ChunkA`'s. -/
def c9ChunkA : Chunk :=
  { id := "a", text := "aa bb".data, source := "index", score := 1, label := none }

/-- See `c9ChunkA`. -/
def c9ChunkB : Chunk :=
  { id := "b", text := "aa bb".data ++ List.replicate 232 ' ' ++ "zzz".data,
    source := "index", score := 0.5, label := none }

set_option maxRecDepth 20000 in
/-- C9 (counterexample): `compose` is not idempotent.  Composing
`[c9ChunkA, c9ChunkB]` keeps both chunks but truncates the second to fit
the budget; composing the result again finds the truncated second chunk
more than 0.92-similar to the first and drops it (2 chunks versus 1). -/
theorem c9_counterexample :
    compose 60 (compose 60 [c9ChunkA, c9ChunkB]) ≠ compose 60 [c9ChunkA, c9ChunkB] := by
  with_unfolding_all decide

/-- C9 (amended): `compose` is idempotent on every input on which the
budget-trimming step truncates no chunk, i.e. whenever the trimmed list is
a prefix of the deduplicated sorted list (in particular whenever the
deduplicated chunks fit the budget): a second pass re-sorts, re-dedups and
re-trims without change and reassigns the same labels.  When the trim
truncates a chunk, the truncated text can become near-duplicate of an
earlier chunk and the second pass can drop it, as in the counterexample. -/
theorem c9_compose_idempotent_without_truncation (m : ℕ) (x : List Chunk)
    (h : trim_to_budget m (deduplicate_chunks (sortDescBy (fun c => c.score) x)) =
         (deduplicate_chunks (sortDescBy (fun c => c.score) x)).take
           (trim_to_budget m (deduplicate_chunks (sortDescBy (fun c => c.score) x))).length) :
    compose m (compose m x) = compose m x := by
  by_cases hx : x = []
  · subst hx
    simp [compose]
  · have hcompose : compose m x =
        label_chunks (trim_to_budget m
          (deduplicate_chunks (sortDescBy (fun c => c.score) x))) := by
      unfold compose
      rw [if_neg hx]
    set D := deduplicate_chunks (sortDescBy (fun c => c.score) x) with hD
    set P := trim_to_budget m D with hP
    have hDsorted : D.Pairwise (fun a b => b.score ≤ a.score) :=
      (sortDescBy_pairwise (fun c : Chunk => c.score) x).sublist
        (deduplicate_chunks_sublist _)
    have hDpair : D.Pairwise DedupOk := deduplicate_chunks_pairwise _
    have hPsub : List.Sublist P D := h ▸ List.take_sublist _ _
    have hPsorted : P.Pairwise (fun a b => b.score ≤ a.score) := hDsorted.sublist hPsub
    have hPpair : P.Pairwise DedupOk := hDpair.sublist hPsub
    have hPtot : total_estimated_tokens P ≤ m := by
      have := trim_go_tokens_le m D 0 (Nat.zero_le m)
      rw [hP]
      unfold trim_to_budget
      omega
    by_cases hPnil : P = []
    · rw [hcompose, hPnil]
      simp [label_chunks, label_go, compose]
    · have hLne : label_chunks P ≠ [] := by
        unfold label_chunks
        rw [Ne, label_go_eq_nil_iff]
        exact hPnil
      rw [hcompose]
      show compose m (label_chunks P) = label_chunks P
      unfold compose
      rw [if_neg hLne]
      have hsort : sortDescBy (fun c : Chunk => c.score) (label_chunks P) = label_chunks P := by
        refine sortDescBy_eq_self _ _ ?_
        exact label_go_pairwise (fun a b i j hab => by simpa using hab) P 0 hPsorted
      rw [hsort]
      have hded : deduplicate_chunks (label_chunks P) = label_chunks P := by
        refine deduplicate_chunks_eq_self _ ?_
        exact label_go_pairwise (fun a b i j hab => by simpa [DedupOk] using hab) P 0 hPpair
      rw [hded]
      have htrim : trim_to_budget m (label_chunks P) = label_chunks P := by
        unfold trim_to_budget label_chunks
        refine trim_go_eq_self m _ 0 ?_
        rw [total_label_go]
        omega
      rw [htrim]
      unfold label_chunks
      exact label_go_label_go P 0

/-- Witness for C9: a one-chunk list that fits the default budget. -/
theorem c9_compose_idempotent_without_truncation_witness :
    compose 1100 (compose 1100 [c9ChunkA]) = compose 1100 [c9ChunkA] :=
  c9_compose_idempotent_without_truncation 1100 [c9ChunkA] (by with_unfolding_all decide)

/-! ### Index-retrieval lemmas for C3 -/

theorem index_chunks_go_length : ∀ (l : List IndexSearchResult) (i : ℕ),
    (index_chunks_go i l).length = l.length
  | [], _ => rfl
  | r :: rs, i => by
    simp only [index_chunks_go, List.length_cons]
    rw [index_chunks_go_length rs (i + 1)]

theorem mem_index_chunks_go (y : Chunk) :
    ∀ (l : List IndexSearchResult) (i : ℕ), y ∈ index_chunks_go i l →
      ∃ r ∈ l, y.score = r.similarity
  | [], _, h => by simp [index_chunks_go] at h
  | r :: rs, i, h => by
    simp only [index_chunks_go, List.mem_cons] at h
    rcases h with rfl | h
    · exact ⟨r, List.mem_cons_self _ _, rfl⟩
    · obtain ⟨r₂, hr₂, hs⟩ := mem_index_chunks_go y rs (i + 1) h
      exact ⟨r₂, List.mem_cons_of_mem _ hr₂, hs⟩

theorem index_chunks_go_pairwise :
    ∀ (l : List IndexSearchResult) (i : ℕ),
      l.Pairwise (fun a b => b.similarity ≤ a.similarity) →
      (index_chunks_go i l).Pairwise (fun a b => b.score ≤ a.score)
  | [], _, _ => List.Pairwise.nil
  | r :: rs, i, h => by
    obtain ⟨hhead, htail⟩ := List.pairwise_cons.mp h
    simp only [index_chunks_go]
    refine List.Pairwise.cons ?_ (index_chunks_go_pairwise rs (i + 1) htail)
    intro y hy
    obtain ⟨r₂, hr₂, hs⟩ := mem_index_chunks_go y rs (i + 1) hy
    rw [hs]
    exact hhead r₂ hr₂

/-- C3: the widened (second) nearest-neighbour search happens iff the
profile is widenable AND the mean boosted relevance of the kept initial
results is strictly below `relevance_threshold` AND fewer than `k` initial
results were kept; the searches request exactly `min(k, start_k)` and then,
only when widening fires, `min(start_k + widen_by, k, index size)`
neighbours (never a third search); and a widened call returns at most `k`
chunks sorted by boosted score, descending. -/
theorem c3_progressive_widening (cfg : AdaptiveConfig) (pc : ProfileConfig) (k : ℕ)
    (search : ℕ → List (ℚ × ℕ)) (mdChunks : List (List Char)) (mdFilenames : List String) :
    ((retrieve_from_index cfg pc k search mdChunks mdFilenames).used_widening = true ↔
      (pc.widenable = true ∧
       mean_relevance (kept_results pc mdFilenames mdChunks
          (search (min k cfg.start_k))) < cfg.relevance_threshold ∧
       (kept_results pc mdFilenames mdChunks (search (min k cfg.start_k))).length < k)) ∧
    ((retrieve_from_index cfg pc k search mdChunks mdFilenames).search_requests =
      if (pc.widenable = true ∧
          mean_relevance (kept_results pc mdFilenames mdChunks
            (search (min k cfg.start_k))) < cfg.relevance_threshold ∧
          (kept_results pc mdFilenames mdChunks (search (min k cfg.start_k))).length < k) then
        [min k cfg.start_k, min (min k cfg.start_k + cfg.widen_by) (min k mdChunks.length)]
      else [min k cfg.start_k]) ∧
    (retrieve_from_index cfg pc k search mdChunks mdFilenames).search_requests.length ≤ 2 ∧
    ((pc.widenable = true ∧
      mean_relevance (kept_results pc mdFilenames mdChunks
        (search (min k cfg.start_k))) < cfg.relevance_threshold ∧
      (kept_results pc mdFilenames mdChunks (search (min k cfg.start_k))).length < k) →
      (retrieve_from_index cfg pc k search mdChunks mdFilenames).chunks.length ≤ k ∧
      (retrieve_from_index cfg pc k search mdChunks mdFilenames).chunks.Pairwise
        (fun a b => b.score ≤ a.score)) := by
  by_cases hA : (pc.widenable = true ∧
      mean_relevance (kept_results pc mdFilenames mdChunks
        (search (min k cfg.start_k))) < cfg.relevance_threshold ∧
      (kept_results pc mdFilenames mdChunks (search (min k cfg.start_k))).length < k)
  · have hr : retrieve_from_index cfg pc k search mdChunks mdFilenames =
        { chunks := index_chunks_go 0
            ((sortDescBy (fun r => r.similarity)
              (kept_results pc mdFilenames mdChunks
                (search (min (min k cfg.start_k + cfg.widen_by) (min k mdChunks.length))))).take k),
          used_widening := true,
          search_requests := [min k cfg.start_k,
            min (min k cfg.start_k + cfg.widen_by) (min k mdChunks.length)] } := by
      unfold retrieve_from_index
      rw [if_pos hA]
    rw [hr]
    refine ⟨by simpa using hA, by simp [hA], by simp, ?_⟩
    intro _
    constructor
    · show (index_chunks_go 0 _).length ≤ k
      rw [index_chunks_go_length, List.length_take]
      exact min_le_left _ _
    · refine index_chunks_go_pairwise _ 0 ?_
      exact (sortDescBy_pairwise (fun r : IndexSearchResult => r.similarity) _).sublist
        (List.take_sublist _ _)
  · have hr : retrieve_from_index cfg pc k search mdChunks mdFilenames =
        { chunks := index_chunks_go 0
            (kept_results pc mdFilenames mdChunks (search (min k cfg.start_k))),
          used_widening := false,
          search_requests := [min k cfg.start_k] } := by
      unfold retrieve_from_index
      rw [if_neg hA]
    rw [hr]
    refine ⟨by simpa using hA, by simp [hA], by simp, ?_⟩
    intro h
    exact absurd h hA

/-- Witness for C3: the default configuration, the `theorem` profile,
`k = 5`, and a search that returns one raw hit of similarity 0.4 (kept and
boosted to 0.5, whose mean is below the 0.55 threshold), so widening
fires. -/
theorem c3_progressive_widening_witness :
    (retrieve_from_index defaultAdaptiveConfig theoremProfile 5
        (fun _ => [((0.4 : ℚ), 0)]) [['x']] ["f"]).used_widening = true ∧
    (retrieve_from_index defaultAdaptiveConfig theoremProfile 5
        (fun _ => [((0.4 : ℚ), 0)]) [['x']] ["f"]).chunks.length ≤ 5 := by
  have h := c3_progressive_widening defaultAdaptiveConfig theoremProfile 5
    (fun _ => [((0.4 : ℚ), 0)]) [['x']] ["f"]
  have hA : theoremProfile.widenable = true ∧
      mean_relevance (kept_results theoremProfile ["f"] [['x']]
        ((fun _ => [((0.4 : ℚ), 0)]) (min 5 defaultAdaptiveConfig.start_k))) <
        defaultAdaptiveConfig.relevance_threshold ∧
      (kept_results theoremProfile ["f"] [['x']]
        ((fun _ => [((0.4 : ℚ), 0)]) (min 5 defaultAdaptiveConfig.start_k))).length < 5 := by
    refine ⟨rfl, ?_, ?_⟩ <;> with_unfolding_all decide
  exact ⟨h.1.mpr hA, (h.2.2.2 hA).1⟩

/-! ### Retrieval-path lemmas for C2 and C10 -/

theorem cache_get_snd (s : QueryCache α) (key : String) :
    (cache_get s key).2 = cache_lookup s key := by
  unfold cache_get
  cases h : cache_lookup s key <;> simp [h]

/-- The environment of the C2 counterexample: the real profile registry, a
one-record pack file, and a query cache holding the EMPTY list under the
exact key `"defs::q"`. -/
def c2Env : RetrieverEnv :=
  { cfg := defaultAdaptiveConfig, profiles := get_profile_config,
    search := fun _ => [], mdChunks := [], mdFilenames := [],
    packData := [{ id := some "d1", text := some "hello world".data }] }

/-- The cache of the C2 counterexample. -/
def c2Cache : QueryCache (List Chunk) :=
  { max_size := 500, cache := [("defs::q", [])], hits := 0, total_queries := 0 }

/-- C2 (counterexample): with the empty list stored under the exact key
`"defs::q"`, a `retrieve` for profile `"defs"` and query `"q"` does NOT
return the stored list and does NOT short-circuit: `if cached_result:` is
false for an empty Python list, so the pack is re-loaded and the composer
re-runs (the effect trace is non-empty) and a non-empty list is returned
and re-cached. -/
theorem c2_counterexample :
    cache_lookup c2Cache ("defs" ++ "::" ++ "q") = some [] ∧
    (retrieve c2Env c2Cache "q" "defs" none).map (fun t => t.2.2) ≠ some [] ∧
    (retrieve c2Env c2Cache "q" "defs" none).map (fun t => t.1) ≠ some [] := by
  refine ⟨?_, ?_, ?_⟩ <;> with_unfolding_all decide

/-- C2 (amended): if a retrieve call has stored its composed chunk list in
the query cache under `p ++ "::" ++ q` and that list is NON-EMPTY, every
subsequent retrieve with the same profile and query returns exactly the
stored list with no search, pack load, or composition (empty effect
trace); a stored empty list is falsy in the `if cached_result:` probe and
does not short-circuit (see the counterexample). -/
theorem c2_nonempty_cache_hit_short_circuits (env : RetrieverEnv)
    (cache : QueryCache (List Chunk)) (q p : String) (pc : ProfileConfig)
    (stored : List Chunk) (kArg : Option ℕ)
    (hp : env.profiles p = some pc)
    (hstored : cache_lookup cache (p ++ "::" ++ q) = some stored)
    (hne : stored ≠ []) :
    retrieve env cache q p kArg =
      some (stored, (cache_get cache (p ++ "::" ++ q)).1, []) := by
  obtain ⟨c, rest, rfl⟩ : ∃ c rest, stored = c :: rest := by
    cases stored with
    | nil => exact absurd rfl hne
    | cons c rest => exact ⟨c, rest, rfl⟩
  have hg : (cache_get cache (p ++ "::" ++ q)).2 = some (c :: rest) := by
    rw [cache_get_snd, hstored]
  unfold retrieve
  rw [hp]
  simp only [hg]

/-- Witness for C2: profile `"defs"`, query `"q"`, a one-chunk stored
list. -/
theorem c2_nonempty_cache_hit_short_circuits_witness :
    retrieve c2Env
      { max_size := 500, cache := [("defs::q", [c9ChunkA])], hits := 0, total_queries := 0 }
      "q" "defs" none =
      some ([c9ChunkA],
        (cache_get
          { max_size := 500, cache := [("defs::q", [c9ChunkA])], hits := 0, total_queries := 0 }
          ("defs" ++ "::" ++ "q")).1, []) :=
  c2_nonempty_cache_hit_short_circuits c2Env
    { max_size := 500, cache := [("defs::q", [c9ChunkA])], hits := 0, total_queries := 0 }
    "q" "defs" defsProfile [c9ChunkA] none
    (by with_unfolding_all decide)
    (by with_unfolding_all decide)
    (by simp)

theorem pack_chunks_go_length : ∀ (l : List PackItem) (i : ℕ),
    (pack_chunks_go i l).length = l.length
  | [], _ => rfl
  | it :: rest, i => by
    simp only [pack_chunks_go, List.length_cons]
    rw [pack_chunks_go_length rest (i + 1)]

/-- Fallback chunk for `List.getD` (the lists are only indexed in
bounds). -/
def dummyChunk : Chunk := { id := "", text := [], source := "", score := 0, label := none }

/-- Fallback pack record for `List.getD`. -/
def dummyPackItem : PackItem := { id := none, text := none }

theorem pack_chunks_go_getD : ∀ (l : List PackItem) (j i : ℕ), i < l.length →
    (pack_chunks_go j l).getD i dummyChunk =
      { id := (l.getD i dummyPackItem).id.getD ("pack_" ++ toString (j + i)),
        text := (l.getD i dummyPackItem).text.getD [],
        source := "pack", score := 1, label := some ("C" ++ toString (j + i + 1)) }
  | [], _, i, h => by simp at h
  | it :: rest, j, 0, _ => by simp [pack_chunks_go, List.getD]
  | it :: rest, j, i + 1, h => by
    simp only [pack_chunks_go]
    rw [List.getD_cons_succ, List.getD_cons_succ]
    rw [pack_chunks_go_getD rest (j + 1) i (by simpa using h)]
    have h1 : j + 1 + i = j + (i + 1) := by omega
    rw [h1]

/-- C10: on a cache miss (or a falsy cached empty list), retrieval for a
profile whose source is `'pack'` ignores the requested `k` entirely: the
candidate list handed to the context composer has one chunk per pack
record, in file order, each with score `1.0` — whatever `kArg` was passed
(the conclusion does not depend on it). -/
theorem c10_pack_retrieval_ignores_k (env : RetrieverEnv)
    (cache : QueryCache (List Chunk)) (q p : String) (pc : ProfileConfig)
    (kArg : Option ℕ)
    (hp : env.profiles p = some pc)
    (hsrc : pc.source = "pack")
    (hmiss : ∀ v, cache_lookup cache (p ++ "::" ++ q) = some v → v = []) :
    (retrieve env cache q p kArg).map (fun t => (t.1, t.2.2)) =
      some (compose env.cfg.max_context_tokens (pack_chunks_go 0 env.packData),
        [Effect.packLoad, Effect.composeCall (pack_chunks_go 0 env.packData)]) ∧
    (pack_chunks_go 0 env.packData).length = env.packData.length ∧
    (∀ i, i < env.packData.length →
      (pack_chunks_go 0 env.packData).getD i dummyChunk =
        { id := (env.packData.getD i dummyPackItem).id.getD ("pack_" ++ toString (0 + i)),
          text := (env.packData.getD i dummyPackItem).text.getD [],
          source := "pack", score := 1,
          label := some ("C" ++ toString (0 + i + 1)) }) := by
  refine ⟨?_, pack_chunks_go_length env.packData 0,
    fun i hi => pack_chunks_go_getD env.packData 0 i hi⟩
  unfold retrieve
  rw [hp]
  have hg2 := cache_get_snd cache (p ++ "::" ++ q)
  rcases hlu : cache_lookup cache (p ++ "::" ++ q) with _ | v
  · rw [hlu] at hg2
    simp only [hg2]
    simp [hsrc, retrieve_from_pack]
  · have hv : v = [] := hmiss v hlu
    subst hv
    rw [hlu] at hg2
    simp only [hg2]
    simp [hsrc, retrieve_from_pack]

/-- The environment of the C10 witness: the real registry and a
two-record pack (one record with both keys, one with neither). -/
def c10Env : RetrieverEnv :=
  { cfg := defaultAdaptiveConfig, profiles := get_profile_config,
    search := fun _ => [], mdChunks := [], mdFilenames := [],
    packData := [{ id := some "d1", text := some "hello world".data },
                 { id := none, text := none }] }

/-- Witness for C10: profile `"defs"` (a pack profile), an empty cache,
and an explicit `k = 1` smaller than the pack. -/
theorem c10_pack_retrieval_ignores_k_witness :
    (retrieve c10Env (QueryCache.empty (List Chunk) 500) "q" "defs" (some 1)).map
        (fun t => (t.1, t.2.2)) =
      some (compose c10Env.cfg.max_context_tokens (pack_chunks_go 0 c10Env.packData),
        [Effect.packLoad, Effect.composeCall (pack_chunks_go 0 c10Env.packData)]) ∧
    (pack_chunks_go 0 c10Env.packData).length = c10Env.packData.length ∧
    (pack_chunks_go 0 c10Env.packData).getD 0 dummyChunk =
      { id := (c10Env.packData.getD 0 dummyPackItem).id.getD ("pack_" ++ toString (0 + 0)),
        text := (c10Env.packData.getD 0 dummyPackItem).text.getD [],
        source := "pack", score := 1, label := some ("C" ++ toString (0 + 0 + 1)) } := by
  have h := c10_pack_retrieval_ignores_k c10Env (QueryCache.empty (List Chunk) 500)
    "q" "defs" defsProfile (some 1)
    (by with_unfolding_all decide)
    rfl
    (by
      intro v hv
      rw [show cache_lookup (QueryCache.empty (List Chunk) 500) ("defs" ++ "::" ++ "q") =
        none from rfl] at hv
      exact Option.noConfusion hv)
  exact ⟨h.1, h.2.1, h.2.2 0 (by decide)⟩

end MultiNodeRAG
